import Mathlib

/-!
Verification development for the IPTV media-relay backend.

The repository ships several deployment variants of the same Express
application (a pure-redirect variant, an HTTPS-redirect variant, a mixed
proxy/redirect variant, a production proxy variant and a development
server).  The definitions below are shallow embeddings of the helper
functions and of the stream-relay route handlers of those variants,
translated directly from the JavaScript source.  Header tables are
modelled as association lists with case-insensitive keys (Node stores
header names lowercased); machine I/O (the axios call, the byte pipe)
is modelled by passing the upstream outcome in as data.
-/

/-- One character of the id allow-list, the complement of the
JavaScript regex used in sanitizeId. -/
def isIdChar (c : Char) : Bool :=
  ('a' ≤ c && c ≤ 'z') || ('A' ≤ c && c ≤ 'Z') || ('0' ≤ c && c ≤ '9') || c = '_' || c = '-'

/-- Characters kept by the cleanup regex in sanitizeExtension. -/
def isLowerDigit (c : Char) : Bool :=
  ('a' ≤ c && c ≤ 'z') || ('0' ≤ c && c ≤ '9')

/-- sanitizeId from the source (identical in every variant): a missing or
empty id yields null; otherwise characters outside the allow-list are
removed and the result is kept only if its length is in 1..50. -/
def sanitizeId (id : Option String) : Option String :=
  match id with
  | none => none
  | some s =>
    if s = "" then none
    else
      let clean := s.data.filter isIdChar
      if 0 < clean.length ∧ clean.length ≤ 50 then some (String.mk clean) else none

/-- The container-extension allow-list of sanitizeExtension. -/
def extAllowList : List String := ["mp4", "mkv", "avi", "m3u8", "ts"]

/-- The cleanup step of sanitizeExtension: default a missing or empty
extension to mp4, lowercase, and drop characters outside a-z0-9. -/
def extClean (ext : Option String) : String :=
  let s := match ext with
    | none => "mp4"
    | some e => if e = "" then "mp4" else e
  String.mk ((s.data.map Char.toLower).filter isLowerDigit)

/-- sanitizeExtension from the source: the cleaned string if it is in
the allow-list, else mp4. -/
def sanitizeExtension (ext : Option String) : String :=
  let clean := extClean ext
  if extAllowList.contains clean then clean else "mp4"

/-- Provider configuration (IPTV_CONFIG in the source). -/
structure IPTVConfig where
  serverUrl : String
  username : String
  password : String
deriving DecidableEq

/-- buildMovieUrl from the source (plain string template). -/
def buildMovieUrl (cfg : IPTVConfig) (streamId : String) (extension : String) : String :=
  cfg.serverUrl ++ "/movie/" ++ cfg.username ++ "/" ++ cfg.password ++ "/" ++ streamId ++ "." ++ extension

/-- buildSeriesUrl from the source (plain string template). -/
def buildSeriesUrl (cfg : IPTVConfig) (episodeId : String) (extension : String) : String :=
  cfg.serverUrl ++ "/series/" ++ cfg.username ++ "/" ++ cfg.password ++ "/" ++ episodeId ++ "." ++ extension

/-- Substring test on strings (JavaScript String.includes). -/
def startsWithL : List Char → List Char → Bool
  | _, [] => true
  | [], _ :: _ => false
  | a :: as, b :: bs => a = b && startsWithL as bs

/-- Contiguous-substring test on character lists. -/
def infixL (hay nee : List Char) : Bool :=
  match hay with
  | [] => nee.isEmpty
  | _ :: t => startsWithL hay nee || infixL t nee

/-- s.includes(sub) on strings. -/
def containsSub (s sub : String) : Bool := infixL s.data sub.data

/-- toHttps from the HTTPS-redirect variant: rewrite a leading http:
scheme to https: (the source regex is anchored at the start). -/
def toHttps (url : String) : String :=
  if startsWithL url.data ("http:".data)
  then "https:" ++ String.mk (url.data.drop 5) else url

/-- ASCII lowercase of a string, as Node applies to header names. -/
def lowerStr (s : String) : String := String.mk (s.data.map Char.toLower)

/-- A header table: association list of name/value pairs, names stored
lowercased. -/
abbrev Headers := List (String × String)

/-- Case-insensitive header lookup (response.headers[h] / getHeader). -/
def hget (hs : Headers) (n : String) : Option String :=
  (hs.find? (fun p => p.1 == lowerStr n)).map Prod.snd

/-- res.setHeader: replaces any entry with the same (case-insensitive)
name and records the new value. -/
def setHeader (hs : Headers) (n v : String) : Headers :=
  hs.filter (fun p => !(p.1 == lowerStr n)) ++ [(lowerStr n, v)]

/-- a occurs contiguously inside b. -/
def strInfix (a b : String) : Prop := ∃ s t, s ++ a.data ++ t = b.data

/-- Body of a response sent to the client. -/
inductive RBody where
  /-- piped upstream bytes (response.data.pipe(res)) -/
  | stream (bytes : List Nat)
  /-- a JSON error envelope with success and error fields -/
  | json (success : Bool) (error : String)
  /-- the small HTML body Express emits with res.redirect -/
  | redirectBody
deriving DecidableEq

/-- An upstream (provider) HTTP response: status, headers (axios
normalizes names to lowercase) and body bytes. -/
structure UpResp where
  status : Nat
  headers : Headers
  body : List Nat
deriving DecidableEq

/-- A response the relay sends to its client. -/
structure ClientResp where
  status : Nat
  headers : Headers
  body : RBody
deriving DecidableEq

/-- An outbound request to the upstream provider. -/
structure UpReq where
  url : String
  headers : Headers
deriving DecidableEq

/-- What the upstream world does for one relay request: either a
response arrives, or the transport fails before any headers
(connect/DNS/timeout). -/
inductive UpWorld where
  | ok (r : UpResp)
  | netfail
deriving DecidableEq

/-- Result of running one stream route: either the request was rejected
locally with no upstream request issued, or an upstream request was
issued and a client response produced. -/
inductive RouteOutcome where
  | reject (resp : ClientResp)
  | withUpstream (upReq : UpReq) (resp : ClientResp)
deriving DecidableEq

/-- The response a route outcome carries. -/
def responseOf : RouteOutcome → ClientResp
  | .reject r => r
  | .withUpstream _ r => r

/-- Whether an upstream request was issued. -/
def issuedUpstream : RouteOutcome → Bool
  | .reject _ => false
  | .withUpstream _ _ => true

/-- The three movie-relay implementations in the repository. -/
inductive MVariant where
  /-- the mixed-mode variant (proxy VOD, redirect live) -/
  | mixed
  /-- the production proxy server -/
  | prodV
  /-- the development server -/
  | devV
deriving DecidableEq

/-- The header forward allow-list of each movie-relay variant. -/
def forwardList : MVariant → List String
  | .mixed => ["content-type", "content-length", "content-range", "accept-ranges"]
  | .prodV => ["content-type", "content-length", "content-range", "accept-ranges"]
  | .devV  => ["content-type", "content-length", "content-range", "accept-ranges",
               "cache-control", "last-modified", "etag"]

/-- The forEach loop copying allow-listed upstream headers onto the
outbound response. -/
def forwardHeaders (names : List String) (up : Headers) : Headers :=
  names.foldl (fun acc n =>
    match hget up n with
    | some v => setHeader acc n v
    | none => acc) []

/-- Headers each variant sends on the upstream movie request, including
the verbatim inbound Range value when present. -/
def movieUpHeaders (v : MVariant) (range : Option String) : Headers :=
  let base : Headers :=
    match v with
    | .mixed => [("user-agent", "VLC/3.0.18"), ("accept", "*/*")]
    | .prodV => [("user-agent", "VLC/3.0.18 LibVLC/3.0.18"), ("accept", "*/*"),
                 ("accept-encoding", "identity"), ("connection", "keep-alive")]
    | .devV  => [("user-agent", "VLC/3.0.18"), ("accept", "*/*"),
                 ("accept-encoding", "identity"), ("connection", "keep-alive")]
  match range with
  | some rng => base ++ [("range", rng)]
  | none => base

/-- The client response each movie-relay variant builds from an upstream
response (status copy, allow-list forwarding, then the variant's
overrides: the mixed variant forces Content-Type video/mp4 when upstream
omits it or the extension is mkv; the production and dev variants
default Accept-Ranges to bytes when upstream omits it). -/
def movieRelayResp (v : MVariant) (extension : String) (r : UpResp) : ClientResp :=
  let h0 := forwardHeaders (forwardList v) r.headers
  let h1 :=
    match v with
    | .mixed =>
        if (hget r.headers "content-type").isNone || extension == "mkv"
        then setHeader h0 "Content-Type" "video/mp4" else h0
    | .prodV =>
        if (hget r.headers "accept-ranges").isNone
        then setHeader h0 "Accept-Ranges" "bytes" else h0
    | .devV =>
        if (hget r.headers "accept-ranges").isNone
        then setHeader h0 "Accept-Ranges" "bytes" else h0
  { status := r.status, headers := h1, body := .stream r.body }

/-- The generic 500 JSON error each variant sends when axios rejects
(upstream unreachable, or validateStatus refuses a status of 500 or
more). -/
def streamErrResp (v : MVariant) : ClientResp :=
  { status := 500, headers := [],
    body := .json false (match v with
      | .mixed => "Stream Error"
      | .prodV => "Streaming failed"
      | .devV  => "Streaming failed") }

/-- One full run of the movie stream route GET /stream/:id.  The mixed
and production variants sanitize the id (400 on failure, no upstream
request) and the extension; the dev variant uses the raw id and the raw
query extension defaulted to mp4.  The axios call is modelled by the
world argument: a response with status below 500 is relayed, any other
outcome lands in the catch block. -/
def runMovieRoute (v : MVariant) (cfg : IPTVConfig) (idParam : String)
    (extParam : Option String) (range : Option String) (w : UpWorld) : RouteOutcome :=
  match v with
  | .devV =>
    let extension := match extParam with
      | some e => if e = "" then "mp4" else e
      | none => "mp4"
    let upReq : UpReq := { url := buildMovieUrl cfg idParam extension,
                           headers := movieUpHeaders .devV range }
    match w with
    | .ok r =>
        if r.status < 500 then .withUpstream upReq (movieRelayResp .devV extension r)
        else .withUpstream upReq (streamErrResp .devV)
    | .netfail => .withUpstream upReq (streamErrResp .devV)
  | _ =>
    match sanitizeId (some idParam) with
    | none =>
        .reject { status := 400, headers := [],
                  body := .json false (match v with
                    | .mixed => "ID required"
                    | _ => "Invalid stream ID") }
    | some streamId =>
        let extension := sanitizeExtension extParam
        let upReq : UpReq := { url := buildMovieUrl cfg streamId extension,
                               headers := movieUpHeaders v range }
        match w with
        | .ok r =>
            if r.status < 500 then .withUpstream upReq (movieRelayResp v extension r)
            else .withUpstream upReq (streamErrResp v)
        | .netfail => .withUpstream upReq (streamErrResp v)

/-- A concrete provider configuration used by the closed instances. -/
def cfgEx : IPTVConfig :=
  { serverUrl := "http://up.example.com", username := "alice", password := "s3cret" }

/-- A concrete 206 upstream response carrying Content-Range. -/
def up206 : UpResp :=
  { status := 206,
    headers := [("content-range", "bytes 1000-1999/5000"), ("content-type", "video/mp4")],
    body := [7, 7] }

/-- The content-type each series route emits, stated after the spec's
policy words (mkv wins, then m3u8, then the upstream value, then the
video/mp4 default). -/
def seriesCtPolicy (ext : String) (upCt : Option String) : String :=
  if ext = "mkv" then "video/mp4"
  else if ext = "m3u8" then "application/x-mpegURL"
  else
    match upCt with
    | some ct => ct
    | none => "video/mp4"

/-- A concrete upstream response with a text/plain content-type. -/
def upTextPlain : UpResp :=
  { status := 200, headers := [("content-type", "text/plain")], body := [] }

/-- Two concrete upstream responses that differ only outside the
allow-list. -/
def upExtraA : UpResp :=
  { status := 200, headers := [("content-type", "video/mp4"), ("server", "nginx")], body := [1] }

/-- The same allow-listed content with different extra headers. -/
def upExtraB : UpResp :=
  { status := 200,
    headers := [("content-type", "video/mp4"), ("x-real-ip", "10.0.0.7")], body := [1] }

/-- Lookup in an empty header table. -/
theorem hget_nil (n : String) : hget [] n = none := rfl

/-- Lookup against a cons cell. -/
theorem hget_cons (k v : String) (hs : Headers) (n : String) :
    hget ((k, v) :: hs) n = if k = lowerStr n then some v else hget hs n := by
  by_cases h : k = lowerStr n
  · have hb : (k == lowerStr n) = true := beq_iff_eq.mpr h
    simp [hget, List.find?, hb, h]
  · have hb : (k == lowerStr n) = false := by simp [h]
    simp [hget, List.find?, hb, h]

/-- Lookup only depends on the lowercased name. -/
theorem hget_congr (hs : Headers) (a b : String) (h : lowerStr a = lowerStr b) :
    hget hs a = hget hs b := by
  simp [hget, h]

/-- Lookup distributes over append, first table wins. -/
theorem hget_append (h1 h2 : Headers) (n : String) :
    hget (h1 ++ h2) n =
      match hget h1 n with
      | some v => some v
      | none => hget h2 n := by
  induction h1 with
  | nil => simp [hget_nil]
  | cons p t ih =>
      obtain ⟨k, v⟩ := p
      by_cases h : k = lowerStr n
      · simp [List.cons_append, hget_cons, h]
      · simp [List.cons_append, hget_cons, h, ih]

/-- Filtering out one name does not change lookups of other names. -/
theorem hget_filter_ne (hs : Headers) (n q : String) (h : lowerStr q ≠ lowerStr n) :
    hget (hs.filter (fun p => !(p.1 == lowerStr n))) q = hget hs q := by
  induction hs with
  | nil => rfl
  | cons p t ih =>
      obtain ⟨k, v⟩ := p
      have hnq : lowerStr n ≠ lowerStr q := fun hh => h hh.symm
      by_cases hk : k = lowerStr n
      · have hq : k ≠ lowerStr q := by rw [hk]; exact hnq
        simp [List.filter_cons, hk, hget_cons, hq, hnq, ih]
      · simp only [List.filter_cons]
        have hb : (k == lowerStr n) = false := by simp [hk]
        by_cases hq : k = lowerStr q
        · simp [hb, hget_cons, hq, h, ih]
        · simp [hb, hget_cons, hq, ih]

/-- Filtering out a name removes it from lookups. -/
theorem hget_filter_self (hs : Headers) (n q : String) (h : lowerStr q = lowerStr n) :
    hget (hs.filter (fun p => !(p.1 == lowerStr n))) q = none := by
  induction hs with
  | nil => rfl
  | cons p t ih =>
      obtain ⟨k, v⟩ := p
      by_cases hk : k = lowerStr n
      · simp [List.filter_cons, hk, ih]
      · have hb : (k == lowerStr n) = false := by simp [hk]
        have hq : k ≠ lowerStr q := by rw [h]; exact hk
        simp [List.filter_cons, hb, hget_cons, hq, ih]

/-- setHeader makes the written name read back the written value. -/
theorem hget_setHeader_eqk (hs : Headers) (n v q : String) (h : lowerStr q = lowerStr n) :
    hget (setHeader hs n v) q = some v := by
  simp [setHeader, hget_append, hget_filter_self hs n q h, hget_cons, h]

/-- setHeader leaves every other name unchanged. -/
theorem hget_setHeader_ne (hs : Headers) (n v q : String) (h : lowerStr q ≠ lowerStr n) :
    hget (setHeader hs n v) q = hget hs q := by
  have hne : lowerStr n ≠ lowerStr q := fun hh => h hh.symm
  simp only [setHeader, hget_append, hget_filter_ne hs n q h, hget_cons, hne, if_neg, hget_nil]
  cases hget hs q <;> simp

/-- Lookup through the forwarding fold, for any accumulator: a name is
present exactly when some allow-listed name with the same lowercase form
is present upstream, and then it carries the upstream value. -/
theorem hget_forward_fold (names : List String) (up : Headers) (q : String) :
    ∀ acc : Headers,
      hget (names.foldl (fun acc n =>
        match hget up n with
        | some v => setHeader acc n v
        | none => acc) acc) q =
      if names.any (fun n => (lowerStr n == lowerStr q) && (hget up n).isSome)
      then hget up q else hget acc q := by
  induction names with
  | nil => intro acc; simp
  | cons n ns ih =>
      intro acc
      simp only [List.foldl_cons, List.any_cons]
      obtain hup | ⟨v, hup⟩ : hget up n = none ∨ ∃ v, hget up n = some v := by
        cases hget up n with
        | none => exact Or.inl rfl
        | some v => exact Or.inr ⟨v, rfl⟩
      · simp only [hup]
        simp [ih]
      · simp only [hup]
        by_cases heq : lowerStr n = lowerStr q
        · have hq : hget up q = some v := by rw [hget_congr up q n heq.symm]; exact hup
          have hb : (lowerStr n == lowerStr q) = true := beq_iff_eq.mpr heq
          rw [ih (setHeader acc n v)]
          by_cases hany : ns.any (fun n => (lowerStr n == lowerStr q) && (hget up n).isSome)
          · simp [hany, hb]
          · simp only [hany, if_neg, Bool.false_eq_true, if_false]
            rw [hget_setHeader_eqk acc n v q heq.symm]
            simp [hb, hq]
        · have hb : (lowerStr n == lowerStr q) = false := by simp [heq]
          rw [ih (setHeader acc n v)]
          rw [hget_setHeader_ne acc n v q (fun hh => heq hh.symm)]
          simp [hb]

/-- Lookup through forwardHeaders itself. -/
theorem hget_forwardHeaders (names : List String) (up : Headers) (q : String) :
    hget (forwardHeaders names up) q =
      if names.any (fun n => (lowerStr n == lowerStr q) && (hget up n).isSome)
      then hget up q else none := by
  rw [forwardHeaders, hget_forward_fold names up q []]
  rfl

/-- The forwarding fold looks at the upstream table only through the
allow-listed names. -/
theorem forwardHeaders_congr (names : List String) (u1 u2 : Headers)
    (h : ∀ n ∈ names, hget u1 n = hget u2 n) :
    forwardHeaders names u1 = forwardHeaders names u2 := by
  rw [forwardHeaders, forwardHeaders]
  have aux : ∀ (ns : List String), (∀ n ∈ ns, hget u1 n = hget u2 n) → ∀ acc : Headers,
      ns.foldl (fun acc n =>
        match hget u1 n with
        | some v => setHeader acc n v
        | none => acc) acc =
      ns.foldl (fun acc n =>
        match hget u2 n with
        | some v => setHeader acc n v
        | none => acc) acc := by
    intro ns
    induction ns with
    | nil => intro _ acc; rfl
    | cons n t ih =>
        intro hn acc
        simp only [List.foldl_cons]
        rw [hn n (List.mem_cons_self n t)]
        exact ih (fun m hm => hn m (List.mem_cons_of_mem n hm)) _
  exact aux names h []

/-- The two series-relay implementations the spec's content-type policy
cites: the production server and the dev server. -/
inductive SVariant where
  | prodS
  | devS
deriving DecidableEq

/-- Header forward allow-list of each series-relay variant (neither
forwards content-type from the loop; it is always set by the policy). -/
def seriesForwardList : SVariant → List String
  | .prodS => ["content-length", "content-range", "accept-ranges"]
  | .devS  => ["content-length", "content-range", "accept-ranges",
               "cache-control", "last-modified", "etag"]

/-- The client response the series relay builds from an upstream
response: status copy, allow-list forwarding, the content-type policy
(mkv forces video/mp4; else m3u8 forces application/x-mpegURL; else the
upstream content-type, defaulting to video/mp4), then the Accept-Ranges
bytes default. -/
def seriesRelayResp (sv : SVariant) (extension : String) (r : UpResp) : ClientResp :=
  let h0 := forwardHeaders (seriesForwardList sv) r.headers
  let h1 :=
    if extension = "mkv" then setHeader h0 "Content-Type" "video/mp4"
    else if extension = "m3u8" then setHeader h0 "Content-Type" "application/x-mpegURL"
    else
      match hget r.headers "content-type" with
      | some ct => setHeader h0 "Content-Type" ct
      | none => setHeader h0 "Content-Type" "video/mp4"
  let h2 :=
    if (hget r.headers "accept-ranges").isNone
    then setHeader h1 "Accept-Ranges" "bytes" else h1
  { status := r.status, headers := h2, body := .stream r.body }

/-- The extension each series route hands to its relay: the production
route sanitizes the path parameter, the dev route merely lowercases it. -/
def seriesRouteExt (sv : SVariant) (extParam : String) : String :=
  match sv with
  | .prodS => sanitizeExtension (some extParam)
  | .devS => lowerStr extParam

/-- Interpolation of a possibly-null JavaScript value into a template
string. -/
def jsStr : Option String → String
  | some s => s
  | none => "null"

/-- The movie redirect route of the HTTPS-redirect variant: sanitize,
400 on a null id, otherwise redirect (302 with a Location header) to the
HTTPS form of the upstream movie URL, which embeds the provider
credentials in its path. -/
def movieRedirectRoute (cfg : IPTVConfig) (idParam : String)
    (extParam : Option String) : ClientResp :=
  match sanitizeId (some idParam) with
  | none => { status := 400, headers := [], body := .json false "Invalid stream ID" }
  | some streamId =>
      let url := toHttps (buildMovieUrl cfg
        (jsStr (sanitizeId (some streamId))) (sanitizeExtension (some (sanitizeExtension extParam))))
      { status := 302, headers := [("location", url)], body := .redirectBody }

-- ==========================================
-- Stream lifecycle (pipe / close handler)
-- ==========================================

/-- Events observable by one relay request after the upstream headers
arrived: a body chunk, the upstream body ending (pipe then ends the
client response), or the client connection emitting close. -/
inductive StreamEvent where
  | chunk
  | upEnd
  | clientClose
deriving DecidableEq

/-- Request-scoped lifecycle state: whether res.writableEnded is set,
whether the close event has fired (Node emits it once), and how many
times response.data.destroy() ran. -/
structure PipeState where
  ended : Bool
  closed : Bool
  destroyCalls : Nat
deriving DecidableEq

/-- One lifecycle step.  The clientClose case is the close handler from
the source: if (!res.writableEnded) response.data.destroy(). -/
def pipeStep (s : PipeState) : StreamEvent → PipeState
  | .chunk => s
  | .upEnd => if s.closed then s else { s with ended := true }
  | .clientClose =>
      if s.closed then s
      else
        { s with
          closed := true
          destroyCalls := if s.ended then s.destroyCalls else s.destroyCalls + 1 }

/-- Run a whole event trace from the initial streaming state. -/
def runPipe (events : List StreamEvent) : PipeState :=
  events.foldl pipeStep { ended := false, closed := false, destroyCalls := 0 }

/-- Whether the client close arrives before the upstream body ends. -/
def closeBeforeEnd : List StreamEvent → Bool
  | [] => false
  | .chunk :: rest => closeBeforeEnd rest
  | .upEnd :: _ => false
  | .clientClose :: _ => true

-- ==========================================
-- Router dispatch (redirect-only app)
-- ==========================================

/-- Substrings the security middleware blocks with 403. -/
def blockedSubs : List String := [".env", ".git", "node_modules", "package.json"]

/-- The request path spelled from its segments. -/
def pathOf (segs : List String) : String :=
  segs.foldl (fun acc s => acc ++ "/" ++ s) ""

/-- The blocked-file middleware test (case-insensitive includes). -/
def isBlockedPath (p : String) : Bool :=
  blockedSubs.any (fun b => containsSub (lowerStr p) b)

/-- The d+ route-parameter pattern: one or more digits filling the whole
segment. -/
def allDigits (s : String) : Bool :=
  !s.data.isEmpty && s.data.all Char.isDigit

/-- Which handler an inbound path reaches in the redirect-only app. -/
inductive Handler where
  | forbidden
  | apiData (rest : List String)
  | apiHealth
  | movieStream (id : String)
  | seriesStream (id ext : String)
  | liveStream (id : String)
  | notFound
deriving DecidableEq

/-- Express dispatch of the redirect-only app: the blocked-file
middleware runs first; the movie and live routes use the digits-only id
pattern; unmatched paths land in the catch-all. -/
def dispatch (segs : List String) : Handler :=
  if isBlockedPath (pathOf segs) then .forbidden
  else
    match segs with
    | "api" :: rest => if rest = ["health"] then .apiHealth else .apiData rest
    | ["stream", a] => if allDigits a then .movieStream a else .notFound
    | ["stream", a, b] =>
        if a = "live" then (if allDigits b then .liveStream b else .notFound)
        else .notFound
    | ["stream", a, b, c] => if a = "series" then .seriesStream b c else .notFound
    | _ => .notFound

/-- The terminal responses the middleware and catch-all send (the other
handlers run their own route logic). -/
def terminalResp : Handler → Option (Nat × String)
  | .forbidden => some (403, "Forbidden")
  | .notFound => some (404, "Not found")
  | _ => none

-- ==========================================
-- Live-segment pass-through
-- ==========================================

/-- Outcome of GET /stream/live-segment: a local rejection, or an
upstream fetch of the given URL. -/
inductive SegOutcome where
  | reject (status : Nat)
  | fetch (url : String)
deriving DecidableEq

/-- The live-segment route.  The platform URL parser (new URL throwing
on malformed input) is passed in as the predicate parsesAsUrl; a missing
or empty url parameter is rejected before parsing is attempted. -/
def liveSegmentRoute (parsesAsUrl : String → Bool) (urlParam : Option String) : SegOutcome :=
  match urlParam with
  | none => .reject 400
  | some u =>
      if u = "" then .reject 400
      else if parsesAsUrl u then .fetch u
      else .reject 400



-- ==========================================
-- C7: sanitizeExtension fallback
-- ==========================================

/-- C7 counterexample: the raw string MKV is not a member of the
allow-list, yet sanitizeExtension maps it to mkv rather than mp4, so the
claim that every non-member input yields mp4 is false. -/
theorem sanitizeExtension_claim_cex :
    extAllowList.contains "MKV" = false ∧
    sanitizeExtension (some "MKV") = "mkv" ∧
    sanitizeExtension (some "MKV") ≠ "mp4" := by
  refine ⟨by decide, by decide, by decide⟩

/-- C7 (amended): sanitizeExtension returns mp4 for a missing input, and
for every input whose lowercased, alphanumeric-stripped form lies
outside the allow-list. -/
theorem sanitizeExtension_amended :
    sanitizeExtension none = "mp4" ∧
    ∀ e : Option String, extAllowList.contains (extClean e) = false →
      sanitizeExtension e = "mp4" := by
  refine ⟨rfl, ?_⟩
  intro e h
  simp only [sanitizeExtension]
  rw [if_neg (by simpa using h)]

/-- C7 witness: a concrete unsupported extension falls back to mp4. -/
theorem sanitizeExtension_amended_witness :
    sanitizeExtension (some "flv") = "mp4" :=
  sanitizeExtension_amended.2 (some "flv") (by decide)

-- ==========================================
-- C2: id sanitization and the upstream URL
-- ==========================================

/-- C2 counterexample: an id containing a disallowed character is not
mapped to null; sanitizeId strips the character instead. -/
theorem sanitizeId_claim_cex :
    isIdChar '!' = false ∧
    sanitizeId (some "a!") = some "a" ∧
    sanitizeId (some "a!") ≠ none := by
  refine ⟨by decide, by decide, by decide⟩

/-- C2 (amended): ids made only of allow-list characters (length 1..50)
pass through sanitizeId unchanged and the movie URL contains the exact
id and the sanitized extension; sanitizeId yields null exactly when the
input, after stripping disallowed characters, is empty or longer than
50; and on a null id the sanitizing movie routes answer 400 and issue no
upstream request. -/
theorem idSanitization_amended (cfg : IPTVConfig) (s : String) (extq : Option String) :
    (s.data ≠ [] → s.data.all isIdChar = true → s.data.length ≤ 50 →
      sanitizeId (some s) = some s ∧
      strInfix s (buildMovieUrl cfg s (sanitizeExtension extq)) ∧
      strInfix (sanitizeExtension extq) (buildMovieUrl cfg s (sanitizeExtension extq))) ∧
    (sanitizeId (some s) = none ↔
      (s.data.filter isIdChar = [] ∨ 50 < (s.data.filter isIdChar).length)) ∧
    (∀ (v : MVariant) (range : Option String) (w : UpWorld), v ≠ MVariant.devV →
      sanitizeId (some s) = none →
      issuedUpstream (runMovieRoute v cfg s extq range w) = false ∧
      (responseOf (runMovieRoute v cfg s extq range w)).status = 400) := by
  refine ⟨?_, ?_, ?_⟩
  · intro hne hall hlen
    have hs : ¬ s = "" := by
      intro h; subst h; exact hne rfl
    have hf : s.data.filter isIdChar = s.data :=
      List.filter_eq_self.mpr (fun a ha => List.all_eq_true.mp hall a ha)
    have h0 : 0 < s.data.length := List.length_pos.mpr hne
    refine ⟨?_, ?_, ?_⟩
    · simp only [sanitizeId, if_neg hs, hf]
      rw [if_pos ⟨h0, hlen⟩]
    · exact ⟨(cfg.serverUrl ++ "/movie/" ++ cfg.username ++ "/" ++ cfg.password ++ "/").data,
        ("." ++ sanitizeExtension extq).data,
        by simp [buildMovieUrl, String.data_append]⟩
    · exact ⟨(cfg.serverUrl ++ "/movie/" ++ cfg.username ++ "/" ++ cfg.password ++ "/" ++ s ++ ".").data,
        [],
        by simp [buildMovieUrl, String.data_append]⟩
  · have key : sanitizeId (some s) = none ↔
        ¬(0 < (s.data.filter isIdChar).length ∧ (s.data.filter isIdChar).length ≤ 50) := by
      by_cases hs : s = ""
      · subst hs; decide
      · simp only [sanitizeId, if_neg hs]
        by_cases hc : 0 < (s.data.filter isIdChar).length ∧ (s.data.filter isIdChar).length ≤ 50
        · rw [if_pos hc]
          simp [hc]
        · rw [if_neg hc]
          simp [hc]
    rw [key, ← List.length_eq_zero]
    omega
  · intro v range w hv hnull
    cases v with
    | devV => exact absurd rfl hv
    | mixed => simp [runMovieRoute, hnull, issuedUpstream, responseOf]
    | prodV => simp [runMovieRoute, hnull, issuedUpstream, responseOf]

/-- C2 witness: the amended statement at a concrete well-formed id. -/
theorem idSanitization_amended_witness :
    sanitizeId (some "abc123") = some "abc123" ∧
    strInfix "abc123" (buildMovieUrl cfgEx "abc123" (sanitizeExtension (some "avi"))) ∧
    strInfix (sanitizeExtension (some "avi"))
      (buildMovieUrl cfgEx "abc123" (sanitizeExtension (some "avi"))) :=
  (idSanitization_amended cfgEx "abc123" (some "avi")).1 (by decide) (by decide) (by decide)

-- ==========================================
-- C9: live-segment URL guard
-- ==========================================

/-- C9: a missing url parameter, or one the URL parser refuses, is
rejected with 400 and no fetch is attempted; a fetch happens only for a
present, parser-accepted url value. -/
theorem liveSegmentGuard (parses : String → Bool) (urlParam : Option String) :
    ((urlParam = none ∨ ∃ u, urlParam = some u ∧ parses u = false) →
      liveSegmentRoute parses urlParam = SegOutcome.reject 400) ∧
    (∀ u, liveSegmentRoute parses urlParam = SegOutcome.fetch u →
      urlParam = some u ∧ parses u = true) := by
  constructor
  · rintro (h | ⟨u, hu, hp⟩)
    · subst h; rfl
    · subst hu
      by_cases he : u = "" <;> simp [liveSegmentRoute, he, hp]
  · intro u h
    cases urlParam with
    | none => simp [liveSegmentRoute] at h
    | some u2 =>
        simp only [liveSegmentRoute] at h
        by_cases he : u2 = ""
        · rw [if_pos he] at h; exact absurd h (by simp)
        · rw [if_neg he] at h
          by_cases hp : parses u2 = true
          · rw [if_pos hp] at h
            cases h
            exact ⟨rfl, hp⟩
          · rw [if_neg hp] at h
            exact absurd h (by simp)

/-- C9 witness: a string the parser refuses is rejected with 400. -/
theorem liveSegmentGuard_witness :
    liveSegmentRoute (fun s => startsWithL s.toList ("http://".toList)) (some "not-a-url") =
      SegOutcome.reject 400 :=
  (liveSegmentGuard _ _).1 (Or.inr ⟨"not-a-url", rfl, by decide⟩)

-- ==========================================
-- C4: upstream destroy on client close
-- ==========================================

/-- Running the lifecycle fold from any state adds one destroy call
exactly when the state is still live and the trace closes before the
upstream body ends. -/
theorem runPipe_fold (events : List StreamEvent) : ∀ s : PipeState,
    (events.foldl pipeStep s).destroyCalls =
      s.destroyCalls + (if !s.closed && !s.ended && closeBeforeEnd events then 1 else 0) := by
  induction events with
  | nil => intro s; simp [closeBeforeEnd]
  | cons e t ih =>
      intro s
      cases e with
      | chunk =>
          simp only [List.foldl_cons, pipeStep, closeBeforeEnd]
          exact ih s
      | upEnd =>
          simp only [List.foldl_cons, pipeStep, closeBeforeEnd]
          by_cases hc : s.closed
          · rw [if_pos hc, ih s]; simp [hc]
          · rw [if_neg hc, ih _]; simp [hc]
      | clientClose =>
          simp only [List.foldl_cons, pipeStep, closeBeforeEnd]
          by_cases hc : s.closed
          · rw [if_pos hc, ih s]; simp [hc]
          · rw [if_neg hc, ih _]
            by_cases he : s.ended <;> simp [hc, he]

/-- C4: over every event trace, the upstream stream destroy hook runs
exactly once when the client closes before the upstream body completes,
and never when the response had already ended. -/
theorem destroyFiresOnce (events : List StreamEvent) :
    (runPipe events).destroyCalls = if closeBeforeEnd events then 1 else 0 := by
  rw [runPipe, runPipe_fold]
  simp

-- ==========================================
-- C6: upstream status forwarding policy
-- ==========================================

/-- C6: when the guard passes, an upstream response with status below
500 has its exact status forwarded to the client, while an upstream
status of 500 or more, or a transport failure before headers, yields the
500 JSON error envelope. -/
theorem statusForwardPolicy (v : MVariant) (cfg : IPTVConfig) (idp : String)
    (extq range : Option String) (w : UpWorld)
    (hid : v = MVariant.devV ∨ sanitizeId (some idp) ≠ none) :
    (∀ r : UpResp, w = UpWorld.ok r → r.status < 500 →
      (responseOf (runMovieRoute v cfg idp extq range w)).status = r.status) ∧
    (∀ r : UpResp, w = UpWorld.ok r → 500 ≤ r.status →
      responseOf (runMovieRoute v cfg idp extq range w) = streamErrResp v) ∧
    (w = UpWorld.netfail →
      responseOf (runMovieRoute v cfg idp extq range w) = streamErrResp v) := by
  have main : ∀ (sid : String), v ≠ MVariant.devV → sanitizeId (some idp) = some sid →
      (∀ r : UpResp, w = UpWorld.ok r → r.status < 500 →
        (responseOf (runMovieRoute v cfg idp extq range w)).status = r.status) ∧
      (∀ r : UpResp, w = UpWorld.ok r → 500 ≤ r.status →
        responseOf (runMovieRoute v cfg idp extq range w) = streamErrResp v) ∧
      (w = UpWorld.netfail →
        responseOf (runMovieRoute v cfg idp extq range w) = streamErrResp v) := by
    intro sid hv hsid
    cases v with
    | devV => exact absurd rfl hv
    | mixed =>
        refine ⟨?_, ?_, ?_⟩
        · intro r hw hst
          subst hw
          simp [runMovieRoute, hsid, responseOf, hst, movieRelayResp]
        · intro r hw hst
          subst hw
          have : ¬ r.status < 500 := by omega
          simp [runMovieRoute, hsid, responseOf, this]
        · intro hw
          subst hw
          simp [runMovieRoute, hsid, responseOf]
    | prodV =>
        refine ⟨?_, ?_, ?_⟩
        · intro r hw hst
          subst hw
          simp [runMovieRoute, hsid, responseOf, hst, movieRelayResp]
        · intro r hw hst
          subst hw
          have : ¬ r.status < 500 := by omega
          simp [runMovieRoute, hsid, responseOf, this]
        · intro hw
          subst hw
          simp [runMovieRoute, hsid, responseOf]
  rcases hid with hdev | hguard
  · subst hdev
    refine ⟨?_, ?_, ?_⟩
    · intro r hw hst
      subst hw
      simp [runMovieRoute, responseOf, hst, movieRelayResp]
    · intro r hw hst
      subst hw
      have : ¬ r.status < 500 := by omega
      simp [runMovieRoute, responseOf, this]
    · intro hw
      subst hw
      simp [runMovieRoute, responseOf]
  · cases hsid : sanitizeId (some idp) with
    | none => exact absurd hsid hguard
    | some sid =>
        cases hv : decide (v = MVariant.devV) with
        | true =>
            have hd : v = MVariant.devV := of_decide_eq_true hv
            subst hd
            refine ⟨?_, ?_, ?_⟩
            · intro r hw hst
              subst hw
              simp [runMovieRoute, responseOf, hst, movieRelayResp]
            · intro r hw hst
              subst hw
              have : ¬ r.status < 500 := by omega
              simp [runMovieRoute, responseOf, this]
            · intro hw
              subst hw
              simp [runMovieRoute, responseOf]
        | false =>
            exact main sid (of_decide_eq_false hv) hsid



/-- C6 witness: a concrete 206 upstream response is forwarded as 206. -/
theorem statusForwardPolicy_witness :
    (responseOf (runMovieRoute MVariant.prodV cfgEx "42" none none (UpWorld.ok up206))).status
      = up206.status :=
  (statusForwardPolicy MVariant.prodV cfgEx "42" none none (UpWorld.ok up206)
    (Or.inr (by decide))).1 up206 rfl (by decide)

-- ==========================================
-- C3: credentials on the wire
-- ==========================================

/-- C3 counterexample: the redirect-mode movie route answers 302 with a
Location header whose value contains the provider username and password,
so the claim that credentials never appear in client responses is false. -/
theorem credentialLeak_cex :
    (movieRedirectRoute cfgEx "42" (some "mp4")).status = 302 ∧
    containsSub
      (jsStr (hget (movieRedirectRoute cfgEx "42" (some "mp4")).headers "location"))
      cfgEx.username = true ∧
    containsSub
      (jsStr (hget (movieRedirectRoute cfgEx "42" (some "mp4")).headers "location"))
      cfgEx.password = true := by
  refine ⟨by decide, by decide, by decide⟩

/-- C3 (amended): in relay mode the client response is independent of the
provider credentials; the configuration reaches only the upstream
request URL.  (Redirect-mode responses, by contrast, embed the
credentials in the Location header.) -/
theorem relayResponse_credFree (v : MVariant) (cfg cfg2 : IPTVConfig) (idp : String)
    (extq range : Option String) (w : UpWorld) :
    responseOf (runMovieRoute v cfg idp extq range w) =
      responseOf (runMovieRoute v cfg2 idp extq range w) := by
  cases v with
  | devV =>
      cases w with
      | ok r =>
          by_cases hst : r.status < 500 <;> simp [runMovieRoute, responseOf, hst]
      | netfail => simp [runMovieRoute, responseOf]
  | mixed =>
      cases hsid : sanitizeId (some idp) with
      | none => simp [runMovieRoute, hsid, responseOf]
      | some sid =>
          cases w with
          | ok r =>
              by_cases hst : r.status < 500 <;> simp [runMovieRoute, hsid, responseOf, hst]
          | netfail => simp [runMovieRoute, hsid, responseOf]
  | prodV =>
      cases hsid : sanitizeId (some idp) with
      | none => simp [runMovieRoute, hsid, responseOf]
      | some sid =>
          cases w with
          | ok r =>
              by_cases hst : r.status < 500 <;> simp [runMovieRoute, hsid, responseOf, hst]
          | netfail => simp [runMovieRoute, hsid, responseOf]

/-- Forwarding when some allow-listed name reaches the queried one. -/
theorem hget_forward_found (names : List String) (up : Headers) (q : String)
    (h : (names.any fun n => (lowerStr n == lowerStr q) && (hget up n).isSome) = true) :
    hget (forwardHeaders names up) q = hget up q := by
  rw [hget_forwardHeaders, if_pos h]

/-- Forwarding when no allow-listed name reaches the queried one. -/
theorem hget_forward_miss (names : List String) (up : Headers) (q : String)
    (h : (names.any fun n => (lowerStr n == lowerStr q) && (hget up n).isSome) = false) :
    hget (forwardHeaders names up) q = none := by
  rw [hget_forwardHeaders]
  simp [h]

/-- For a lowercase allow-list, a lowercase member name reads back the
upstream value through the forwarding loop. -/
theorem hget_forward_mem (names : List String) (up : Headers) (q : String)
    (_hlow : ∀ n ∈ names, lowerStr n = n) (hql : lowerStr q = q) (hmem : q ∈ names) :
    hget (forwardHeaders names up) q = hget up q := by
  cases hv : hget up q with
  | some w =>
      have hfound := hget_forward_found names up q
        (by rw [List.any_eq_true]; exact ⟨q, hmem, by rw [hql]; simp [hv]⟩)
      rw [hfound, hv]
  | none =>
      apply hget_forward_miss
      rw [List.any_eq_false]
      intro n hn
      by_cases he : lowerStr n = lowerStr q
      · have hnq : hget up n = hget up q := hget_congr up n q he
        simp [hnq, hv, he]
      · simp [he]

/-- For a lowercase allow-list, a lowercase non-member name is absent
from the forwarded headers. -/
theorem hget_forward_notMem (names : List String) (up : Headers) (q : String)
    (hlow : ∀ n ∈ names, lowerStr n = n) (hql : lowerStr q = q) (hmem : ¬ q ∈ names) :
    hget (forwardHeaders names up) q = none := by
  apply hget_forward_miss
  rw [List.any_eq_false]
  intro n hn
  have h1 : lowerStr n = n := hlow n hn
  have hne : ¬ n = q := fun hh => hmem (hh ▸ hn)
  simp [h1, hql, hne]

/-- The movie relay forwards content-range untouched, in every variant. -/
theorem movieRelay_crg (v : MVariant) (ext : String) (r : UpResp) :
    hget (movieRelayResp v ext r).headers "content-range" = hget r.headers "content-range" := by
  cases v with
  | mixed =>
      simp only [movieRelayResp, forwardList]
      split_ifs with hc
      · rw [hget_setHeader_ne _ _ _ _ (by decide)]
        exact hget_forward_mem _ _ _ (by decide) (by decide) (by decide)
      · exact hget_forward_mem _ _ _ (by decide) (by decide) (by decide)
  | prodV =>
      simp only [movieRelayResp, forwardList]
      split_ifs with hc
      · rw [hget_setHeader_ne _ _ _ _ (by decide)]
        exact hget_forward_mem _ _ _ (by decide) (by decide) (by decide)
      · exact hget_forward_mem _ _ _ (by decide) (by decide) (by decide)
  | devV =>
      simp only [movieRelayResp, forwardList]
      split_ifs with hc
      · rw [hget_setHeader_ne _ _ _ _ (by decide)]
        exact hget_forward_mem _ _ _ (by decide) (by decide) (by decide)
      · exact hget_forward_mem _ _ _ (by decide) (by decide) (by decide)

/-- The accept-ranges header the movie relay emits: the upstream value
when present; when absent, nothing in the mixed variant and bytes in the
production and dev variants. -/
theorem movieRelay_ar (v : MVariant) (ext : String) (r : UpResp) :
    hget (movieRelayResp v ext r).headers "accept-ranges" =
      match hget r.headers "accept-ranges" with
      | some a => some a
      | none => if v = MVariant.mixed then none else some "bytes" := by
  cases v with
  | mixed =>
      simp only [movieRelayResp, forwardList]
      cases hv : hget r.headers "accept-ranges" with
      | some a =>
          split_ifs with hc
          · rw [hget_setHeader_ne _ _ _ _ (by decide)]
            rw [hget_forward_mem _ _ _ (by decide) (by decide) (by decide), hv]
          · rw [hget_forward_mem _ _ _ (by decide) (by decide) (by decide), hv]
      | none =>
          split_ifs with hc
          · rw [hget_setHeader_ne _ _ _ _ (by decide)]
            rw [hget_forward_mem _ _ _ (by decide) (by decide) (by decide), hv]
          · rw [hget_forward_mem _ _ _ (by decide) (by decide) (by decide), hv]
  | prodV =>
      simp only [movieRelayResp, forwardList]
      cases hv : hget r.headers "accept-ranges" with
      | some a =>
          rw [if_neg (by simp [hv])]
          rw [hget_forward_mem _ _ _ (by decide) (by decide) (by decide), hv]
      | none =>
          rw [if_pos (by simp [hv])]
          rw [hget_setHeader_eqk _ _ _ _ (by decide)]
          simp
  | devV =>
      simp only [movieRelayResp, forwardList]
      cases hv : hget r.headers "accept-ranges" with
      | some a =>
          rw [if_neg (by simp [hv])]
          rw [hget_forward_mem _ _ _ (by decide) (by decide) (by decide), hv]
      | none =>
          rw [if_pos (by simp [hv])]
          rw [hget_setHeader_eqk _ _ _ _ (by decide)]
          simp

/-- The content-type header of the mixed-variant movie relay: the
upstream value, forced to video/mp4 when absent or when the extension is
mkv; no other override exists on this route. -/
theorem movieRelay_ct_mixed (ext : String) (r : UpResp) :
    hget (movieRelayResp MVariant.mixed ext r).headers "content-type" =
      (if (hget r.headers "content-type").isNone || ext == "mkv"
       then some "video/mp4" else hget r.headers "content-type") := by
  simp only [movieRelayResp, forwardList]
  split_ifs with hc
  · rw [hget_setHeader_eqk _ _ _ _ (by decide)]
  · exact hget_forward_mem _ _ _ (by decide) (by decide) (by decide)

-- ==========================================
-- C1: range relay
-- ==========================================

/-- C1 counterexample: in the mixed variant, an upstream 206 with
Content-Range but without Accept-Ranges is relayed without any
Accept-Ranges header, so the claim that the outbound response always
carries Accept-Ranges bytes is false.  (The inbound Range value itself
is forwarded verbatim.) -/
theorem rangeRelay_claim_cex :
    up206.status = 206 ∧
    hget up206.headers "content-range" = some "bytes 1000-1999/5000" ∧
    hget up206.headers "accept-ranges" = none ∧
    hget (movieUpHeaders MVariant.mixed (some "bytes=1000-1999")) "range"
      = some "bytes=1000-1999" ∧
    hget (movieRelayResp MVariant.mixed "mp4" up206).headers "accept-ranges"
      ≠ some "bytes" := by
  refine ⟨by decide, by decide, by decide, by decide, by decide⟩

/-- C1 (amended): every variant forwards the inbound Range verbatim to
the upstream request; on an upstream 206 with Content-Range the outbound
response is 206 with the same Content-Range; Accept-Ranges equals the
upstream value when present, and when the upstream omits it the
production and dev variants set bytes while the mixed variant omits the
header. -/
theorem rangeRelay_amended (v : MVariant) (rng ext cr : String) (r : UpResp)
    (h206 : r.status = 206) (hcr : hget r.headers "content-range" = some cr) :
    hget (movieUpHeaders v (some rng)) "range" = some rng ∧
    (movieRelayResp v ext r).status = 206 ∧
    hget (movieRelayResp v ext r).headers "content-range" = some cr ∧
    (∀ a, hget r.headers "accept-ranges" = some a →
      hget (movieRelayResp v ext r).headers "accept-ranges" = some a) ∧
    (hget r.headers "accept-ranges" = none →
      hget (movieRelayResp v ext r).headers "accept-ranges" =
        (if v = MVariant.mixed then none else some "bytes")) := by
  refine ⟨?_, ?_, ?_, ?_, ?_⟩
  · cases v <;> rfl
  · cases v <;> exact h206
  · rw [movieRelay_crg, hcr]
  · intro a ha
    rw [movieRelay_ar, ha]
  · intro hn
    rw [movieRelay_ar, hn]

/-- C1 witness: the amended statement at a concrete 206 response. -/
theorem rangeRelay_amended_witness :
    hget (movieRelayResp MVariant.prodV "mp4" up206).headers "content-range"
      = some "bytes 1000-1999/5000" :=
  (rangeRelay_amended MVariant.prodV "bytes=1000-1999" "mp4" "bytes 1000-1999/5000" up206
    (by decide) (by decide)).2.2.1

-- ==========================================
-- C5: content-type policy
-- ==========================================



/-- The series relay realizes the series content-type policy. -/
theorem seriesRelay_ct (sv : SVariant) (ext : String) (r : UpResp) :
    hget (seriesRelayResp sv ext r).headers "content-type" =
      some (seriesCtPolicy ext (hget r.headers "content-type")) := by
  have har : ∀ h1 : Headers,
      hget (if (hget r.headers "accept-ranges").isNone
            then setHeader h1 "Accept-Ranges" "bytes" else h1) "content-type" =
        hget h1 "content-type" := by
    intro h1
    split_ifs with hc
    · exact hget_setHeader_ne _ _ _ _ (by decide)
    · rfl
  cases sv with
  | prodS =>
      simp only [seriesRelayResp, seriesForwardList, seriesCtPolicy]
      rw [har]
      split_ifs with h1 h2
      · rw [hget_setHeader_eqk _ _ _ _ (by decide)]
      · rw [hget_setHeader_eqk _ _ _ _ (by decide)]
      · cases hv : hget r.headers "content-type" with
        | some ct => rw [hget_setHeader_eqk _ _ _ _ (by decide)]
        | none => rw [hget_setHeader_eqk _ _ _ _ (by decide)]
  | devS =>
      simp only [seriesRelayResp, seriesForwardList, seriesCtPolicy]
      rw [har]
      split_ifs with h1 h2
      · rw [hget_setHeader_eqk _ _ _ _ (by decide)]
      · rw [hget_setHeader_eqk _ _ _ _ (by decide)]
      · cases hv : hget r.headers "content-type" with
        | some ct => rw [hget_setHeader_eqk _ _ _ _ (by decide)]
        | none => rw [hget_setHeader_eqk _ _ _ _ (by decide)]



/-- C5 counterexample: the movie route has no m3u8 override; with
requested (sanitized) extension m3u8 it forwards the upstream
content-type instead of forcing application/x-mpegURL, so the claimed
policy does not hold uniformly on both routes. -/
theorem contentTypePolicy_cex :
    sanitizeExtension (some "m3u8") = "m3u8" ∧
    hget (movieRelayResp MVariant.mixed "m3u8" upTextPlain).headers "content-type"
      = some "text/plain" ∧
    hget (movieRelayResp MVariant.mixed "m3u8" upTextPlain).headers "content-type"
      ≠ some "application/x-mpegURL" := by
  refine ⟨by decide, by decide, by decide⟩

/-- C5 (amended): on the series routes (production and dev variants) the
content-type is mkv to video/mp4, else m3u8 to application/x-mpegURL,
else the upstream value defaulting to video/mp4; on the movie route
(mixed variant) the upstream content-type is forwarded and forced to
video/mp4 exactly when absent or when the extension is mkv, with no m3u8
override. -/
theorem contentTypePolicy_amended :
    (∀ (sv : SVariant) (ext : String) (r : UpResp),
      hget (seriesRelayResp sv ext r).headers "content-type" =
        some (seriesCtPolicy ext (hget r.headers "content-type"))) ∧
    (∀ (ext : String) (r : UpResp),
      hget (movieRelayResp MVariant.mixed ext r).headers "content-type" =
        (if (hget r.headers "content-type").isNone || ext == "mkv"
         then some "video/mp4" else hget r.headers "content-type")) :=
  ⟨seriesRelay_ct, movieRelay_ct_mixed⟩

-- ==========================================
-- C8: no header beyond the allow-list is forwarded
-- ==========================================

/-- C8: two upstream responses agreeing on status, body and the
allow-listed headers produce identical relay responses, whatever their
other headers are; no header outside the allow-list influences or
reaches the outbound response. -/
theorem headerAllowList_hyper (v : MVariant) (ext : String) (r1 r2 : UpResp)
    (hs : r1.status = r2.status) (hb : r1.body = r2.body)
    (hh : ∀ n ∈ forwardList v, hget r1.headers n = hget r2.headers n) :
    movieRelayResp v ext r1 = movieRelayResp v ext r2 := by
  have hf : forwardHeaders (forwardList v) r1.headers =
      forwardHeaders (forwardList v) r2.headers :=
    forwardHeaders_congr _ _ _ hh
  cases v with
  | mixed =>
      have hct : hget r1.headers "content-type" = hget r2.headers "content-type" :=
        hh "content-type" (by decide)
      simp only [movieRelayResp, forwardList] at *
      rw [hs, hb, hct, hf]
  | prodV =>
      have har : hget r1.headers "accept-ranges" = hget r2.headers "accept-ranges" :=
        hh "accept-ranges" (by decide)
      simp only [movieRelayResp, forwardList] at *
      rw [hs, hb, har, hf]
  | devV =>
      have har : hget r1.headers "accept-ranges" = hget r2.headers "accept-ranges" :=
        hh "accept-ranges" (by decide)
      simp only [movieRelayResp, forwardList] at *
      rw [hs, hb, har, hf]





/-- C8 witness: the relay output coincides on the two responses. -/
theorem headerAllowList_hyper_witness :
    movieRelayResp MVariant.mixed "mp4" upExtraA = movieRelayResp MVariant.mixed "mp4" upExtraB :=
  headerAllowList_hyper MVariant.mixed "mp4" upExtraA upExtraB (by decide) (by decide)
    (by decide)

-- ==========================================
-- C10: digit-only route patterns and the catch-all
-- ==========================================

/-- C10 counterexample: the path /stream/.env carries a non-digit id yet
does not reach the 404 catch-all; the blocked-file middleware answers
403 Forbidden first. -/
theorem routePattern_cex :
    dispatch ["stream", ".env"] = Handler.forbidden ∧
    terminalResp (dispatch ["stream", ".env"]) = some (403, "Forbidden") ∧
    dispatch ["stream", ".env"] ≠ Handler.notFound := by
  refine ⟨by decide, by decide, by decide⟩

/-- C10 (amended): outside the blocked-file middleware, the movie route
matches exactly the digit-only ids; an id with any non-digit character
never reaches the movie handler (hence not its 400 branch) and lands in
the 404 Not found catch-all; the live route likewise matches only
digit-only ids. -/
theorem routePattern_amended (id : String) :
    (isBlockedPath (pathOf ["stream", id]) = false → allDigits id = true →
      dispatch ["stream", id] = Handler.movieStream id) ∧
    (isBlockedPath (pathOf ["stream", id]) = false → id.data.all Char.isDigit = false →
      dispatch ["stream", id] = Handler.notFound ∧
      terminalResp (dispatch ["stream", id]) = some (404, "Not found")) ∧
    (isBlockedPath (pathOf ["stream", "live", id]) = false →
      dispatch ["stream", "live", id] =
        (if allDigits id then Handler.liveStream id else Handler.notFound)) := by
  refine ⟨?_, ?_, ?_⟩
  · intro hb hd
    simp [dispatch, hb, hd]
  · intro hb hd
    have hd2 : allDigits id = false := by simp [allDigits, hd]
    constructor
    · simp [dispatch, hb, hd2]
    · simp [dispatch, hb, hd2, terminalResp]
  · intro hb
    simp [dispatch, hb]

/-- C10 witness: a concrete non-digit id lands in the 404 catch-all. -/
theorem routePattern_amended_witness :
    dispatch ["stream", "abc"] = Handler.notFound ∧
    terminalResp (dispatch ["stream", "abc"]) = some (404, "Not found") :=
  (routePattern_amended "abc").2.1 (by decide) (by decide)

-- Basic sanity examples (evaluation checks of the embedding).
example : sanitizeId (some "abc-12_X") = some "abc-12_X" := by decide
example : sanitizeId (some "a!b") = some "ab" := by decide
example : sanitizeId (some "!!!") = none := by decide
example : sanitizeExtension (some "mkv") = "mkv" := by decide
example : sanitizeExtension (some "exe") = "mp4" := by decide
example : sanitizeExtension none = "mp4" := by decide
example : containsSub "/stream/.env" ".env" = true := by decide
example : containsSub "/stream/123" ".env" = false := by decide
